/-
Verification of the CrossStackProfiler trace-reconstruction engine
(tools/CrossStackProfiler/ProfileFileReader.py).

Shallow embedding conventions:
* Python dicts with string keys "trainerRank.NNN" / str(gpuId) are modelled by
  their underlying integer (the formatting is injective and the code recovers
  the integer with int(k.split(".")[-1]) / int(k)).
* Python dicts used as insertion-ordered maps are modelled as association
  lists to which new bindings are appended; `in` tests are membership of the
  key in the list of first components.
* A Python function that can raise (IndexError on list[1], KeyError on a
  missing dict key, returning None that the caller dereferences) is modelled
  as returning an Option, with `none` for the raising run.
* `self._align_ts` lives in CspFileReader which is not part of the sources.
  Modelled from the spec: the output carries raw `timestampNs` values
  (sections 3 and 6 of the design), so the alignment is the identity and
  timestamps are passed through unchanged.
* Timestamps, byte counts and track ids are Python ints, modelled as Int.
-/
import Mathlib

/-- One filtered "marker/compute/MarkerCUDA" trace event, keeping the fields
`_allocate_forwardBackwardInfo` reads: the (aligned) timestamp `ts` and
`args["detail_info"]`. -/
structure MarkerEvent where
  ts : Int
  detail_info : String
deriving DecidableEq

/-- A reconstructed pipeline span as produced by
`_allocate_forwardBackwardInfo`: the mutated begin event with its `dur`,
short `name`, colour class `cname` and the pid/tid stamped on it. -/
structure PipelineSpan where
  ts : Int
  dur : Int
  name : String
  cname : String
  pid : Int
  tid : Int
deriving DecidableEq

/-- Python `s.endswith("E")`: the last character is `'E'`. -/
def endsWithE (s : String) : Bool :=
  match s.data.getLast? with
  | some c => c == 'E'
  | none => false

/-- Python `s.split('_')` on a character list. -/
def splitU : List Char → List (List Char)
  | [] => [[]]
  | c :: rest =>
    match splitU rest with
    | [] => [[]]
    | g :: gs => if c == '_' then [] :: g :: gs else (c :: g) :: gs

/-- Index of the last `'_'` in the list, Python `s.rfind('_')` when it
succeeds (`none` models the -1 result). -/
def pyLastUnderscoreIdx (cs : List Char) : Option Nat :=
  match cs.reverse.findIdx? (fun c => c == '_') with
  | none => none
  | some i => some (cs.length - 1 - i)

/-- The span-name computation of `_allocate_forwardBackwardInfo`:
`name = name[: name.rfind('_')]` followed by `name.split('_')[1]`.
Python slicing with rfind = -1 is `name[:-1]` (drop the last character);
the `[1]` subscript raises IndexError when the split has one element,
modelled by `none`. -/
def pyPhaseName (s : String) : Option String :=
  let cs := s.data
  let stripped :=
    match pyLastUnderscoreIdx cs with
    | some i => cs.take i
    | none => cs.take (cs.length - 1)
  match (splitU stripped).get? 1 with
  | none => none
  | some t => some (String.mk t)

/-- Stable insertion (after all elements with key ≤ the new key), the
building block for Python's stable `list.sort(key=...)`. -/
def insLe {α : Type} (key : α → Int) (e : α) : List α → List α
  | [] => [e]
  | x :: xs => if key x ≤ key e then x :: insLe key e xs else e :: x :: xs

/-- Python's stable ascending `list.sort(key=...)`. -/
def stableSortBy {α : Type} (key : α → Int) (l : List α) : List α :=
  l.foldl (fun acc e => insLe key e acc) []

/-- The linear scan of `_allocate_forwardBackwardInfo` over the
timestamp-sorted marker list.  The state is the `lastEle` dict: `none` for
the initial empty dict.  After emitting a span the source does NOT clear
`lastEle`; it keeps pointing at the emitted (mutated) event, whose
`detail_info` has been overwritten with the short name — modelled by the
state `some ⟨l.ts, nm⟩`.  A `none` result models an uncaught IndexError. -/
def fbScan (pid tid : Int) : List MarkerEvent → Option MarkerEvent → Option (List PipelineSpan)
  | [], _ => some []
  | e :: rest, last =>
    if endsWithE e.detail_info then
      match last with
      | none => fbScan pid tid rest none
      | some l =>
        match pyPhaseName l.detail_info with
        | none => none
        | some nm =>
          (fbScan pid tid rest (some ⟨l.ts, nm⟩)).map
            (fun tl =>
              (⟨l.ts, e.ts - l.ts, nm,
                if nm = "backward" then "good" else "bad", pid, tid⟩ : PipelineSpan) :: tl)
    else
      fbScan pid tid rest (some e)

/-- `_allocate_forwardBackwardInfo(restList, pid, tid)`: stable sort by
timestamp, then the matching scan. -/
def allocate_forwardBackwardInfo (restList : List MarkerEvent) (pid tid : Int) :
    Option (List PipelineSpan) :=
  fbScan pid tid (stableSortBy (fun m => m.ts) restList) none

example : pyPhaseName "marker_forward_B" = some "forward" := by decide
example : pyPhaseName "marker_backward_B" = some "backward" := by decide
example : pyPhaseName "forward" = none := by decide
example : pyPhaseName "backward" = none := by decide
example : endsWithE "marker_forward_E" = true := by decide
example : endsWithE "marker_forward_B" = false := by decide

example :
    allocate_forwardBackwardInfo
      [⟨0, "marker_forward_B"⟩, ⟨10, "marker_forward_E"⟩] 0 3 =
    some [⟨0, 10, "forward", "bad", 0, 3⟩] := by decide

example :
    allocate_forwardBackwardInfo
      [⟨0, "marker_forward_B"⟩, ⟨10, "marker_forward_E"⟩, ⟨20, "marker_forward_E"⟩] 0 3 =
    none := by decide

/-- First-match lookup in an insertion-ordered association list; Python
`dict[key]` returns it, raising KeyError when absent (`none`). -/
def assocFind {α β : Type} [DecidableEq α] (k : α) : List (α × β) → Option β
  | [] => none
  | (k', v) :: rest => if k' = k then some v else assocFind k rest

/-- One entry of a per-device-group pipeline list: the shared `metaInfo`
process-name dict, or a reconstructed span. -/
inductive PLEntry
  | meta : PLEntry
  | span : PipelineSpan → PLEntry
deriving DecidableEq

/-- Python `pipeLineInfo[str(gpuId)].extend(v)`: append `v` to the binding of
`g` in place (no change when the key is absent; the caller has just ensured
it is present). -/
def extendVal (g : Nat) (v : List PLEntry) : List (Nat × List PLEntry) → List (Nat × List PLEntry)
  | [] => []
  | (k, l) :: rest => if k = g then (k, l ++ v) :: rest else (k, l) :: extendVal g v rest

/-- One iteration of the merge loop at the end of `getPipeLineInfo`: compute
`gpuId = rankId % gpuPerTrainer`, seed the group with `[metaInfo]` when it is
new, then extend it with the delivered span list. -/
def mergeStep (gpt : Nat) (m : List (Nat × List PLEntry)) (p : Nat × List PipelineSpan) :
    List (Nat × List PLEntry) :=
  let g := p.1 % gpt
  let m1 := if (assocFind g m).isSome then m else m ++ [(g, [PLEntry.meta])]
  extendVal g (p.2.map PLEntry.span) m1

/-- The merge loop of `getPipeLineInfo` (lines 181–197): `deliveries` is the
flattened stream of `(rankId, pipeLineList)` pairs in the order `q.get()`
hands them to the orchestrator (completion order, not rank order). -/
def mergePipelineInfo (gpt : Nat) (deliveries : List (Nat × List PipelineSpan)) :
    List (Nat × List PLEntry) :=
  deliveries.foldl (mergeStep gpt) []

/-- The spans a fixed device group `g` collects from a delivery stream, in
delivery order. -/
def groupSpans (gpt : Nat) (deliveries : List (Nat × List PipelineSpan)) (g : Nat) :
    List PLEntry :=
  (deliveries.filter (fun p => decide (p.1 % gpt = g))).flatMap
    (fun p => p.2.map PLEntry.span)

/-- The `place` enum of a profiler MemEvent. -/
inductive MemPlaceT
  | CPUPlace
  | CUDAPlace
  | CUDAPinnedPlace
deriving DecidableEq

/-- `place_to_str`; the proto enum has exactly the three mapped places, so
the "UnDefine" fallback of the source is unreachable. -/
def place_to_str : MemPlaceT → String
  | .CPUPlace => "CPU"
  | .CUDAPlace => "GPU"
  | .CUDAPinnedPlace => "CUDAPinnedPlace"

/-- A parsed profiler MemEvent (one allocation lifetime). -/
structure MemEvent where
  place : MemPlaceT
  device_id : Int
  thread_id : Int
  start_ns : Int
  end_ns : Int
  bytes : Int
deriving DecidableEq

/-- One raw `crt_info` delta dict appended to `mem_list`. -/
structure MemDelta where
  time : Int
  size : Int
  place : String
  pid : Int
  thread_id : Int
  device_id : Int
deriving DecidableEq

/-- One counter sample emitted by `chrome_trace.emit_counter("Memory", ...)`. -/
structure CounterSample where
  pid : Int
  ts : Int
  value : Int
deriving DecidableEq

/-- A composite device/track table key `(k, device_id, category)`; the rank
key string is modelled by its rankId. -/
structure AllocKey where
  rank : Nat
  device : Int
  category : String
deriving DecidableEq

/-- The delta-building loop of `_allocate_memory_event` for one rank `k`:
CUDA/CUDAPinned events whose device is not the rendered `gpuId` are skipped;
every kept event contributes `(+bytes, start_ns)` then `(-bytes, end_ns)`,
both carrying the pid looked up in `mem_devices[(k, device_id, place)]`
(KeyError modelled by `none`). -/
def expandMemList (gpuId : Int) (rank : Nat) (memDevices : List (AllocKey × Int)) :
    List MemEvent → Option (List MemDelta)
  | [] => some []
  | m :: rest =>
    if (m.place = MemPlaceT.CUDAPlace ∨ m.place = MemPlaceT.CUDAPinnedPlace) ∧
        m.device_id ≠ gpuId then
      expandMemList gpuId rank memDevices rest
    else
      let pl := place_to_str m.place
      match assocFind ⟨rank, m.device_id, pl⟩ memDevices with
      | none => none
      | some pid =>
        (expandMemList gpuId rank memDevices rest).map
          (fun tl =>
            (⟨m.start_ns, m.bytes, pl, pid, m.thread_id, m.device_id⟩ : MemDelta) ::
            (⟨m.end_ns, -m.bytes, pl, pid, m.thread_id, m.device_id⟩ : MemDelta) :: tl)

/-- The inner coalescing scan over the sorted `mem_list`: `cur` is the delta
`mem_list[i]` currently ending the run of equal timestamps, `total` the
running `total_size` including it; a sample `(cur.pid, cur.time, total)` is
emitted when the run ends (or the list does). -/
def coalesce1 (cur : MemDelta) (total : Int) : List MemDelta → List CounterSample
  | [] => [⟨cur.pid, cur.time, total⟩]
  | d :: rest =>
    if d.time = cur.time then coalesce1 d (total + d.size) rest
    else ⟨cur.pid, cur.time, total⟩ :: coalesce1 d (total + d.size) rest

/-- The `while i < len(mem_list)` loop: running total/coalescing scan. -/
def coalesceScan (total : Int) : List MemDelta → List CounterSample
  | [] => []
  | d :: rest => coalesce1 d (total + d.size) rest

/-- The per-rank body of `_allocate_memory_event`: build `mem_list`, stable
sort by time, scan with `total_size = 0`. -/
def memRankSeries (gpuId : Int) (rank : Nat) (memDevices : List (AllocKey × Int))
    (mevents : List MemEvent) : Option (List CounterSample) :=
  (expandMemList gpuId rank memDevices mevents).map
    (fun ds => coalesceScan 0 (stableSortBy (fun d => d.time) ds))

/-- Sum of the sizes of all deltas with timestamp at or before `t`. -/
def sumSizesUpTo (ds : List MemDelta) (t : Int) : Int :=
  ((ds.filter (fun d => decide (d.time ≤ t))).map (fun d => d.size)).sum

/-- Sum of the sizes of the deltas on track `p` with timestamp at or before
`t` (the quantity the specification ascribes to a counter sample). -/
def trackSumUpTo (ds : List MemDelta) (p : Int) (t : Int) : Int :=
  ((ds.filter (fun d => decide (d.pid = p) && decide (d.time ≤ t))).map (fun d => d.size)).sum

/-- The profiler event type enum (`profiler_pb2.Event.CPU` / `GPUKernel`). -/
inductive EvType
  | CPU
  | GPUKernel
deriving DecidableEq

/-- A parsed profiler compute/copy event with the fields the reader uses. -/
structure TraceEvent where
  type : EvType
  device_id : Int
  sub_device_id : Int
  name : String
  start_ns : Int
  end_ns : Int
  memcopy_bytes : Int
  detail_info : String
deriving DecidableEq

/-- One rank's parsed profile: the `profile_dict` entry for key
`"trainerRank.{rankId:03}"` (the key modelled by `rankId`). -/
structure RankRecord where
  rankId : Nat
  events : List TraceEvent
  mem_events : List MemEvent
deriving DecidableEq

/-- Which of the two allocation tables a pid assignment went to. -/
inductive TrackKind
  | dev
  | mem
deriving DecidableEq

/-- One `chrome_trace.emit_pid` call: every pid assignment emits one metadata
label; the log records them in assignment order. -/
structure LogEntry where
  kind : TrackKind
  key : AllocKey
  pid : Int
deriving DecidableEq

/-- The mutable state of `_allocate_pids`: the two insertion-ordered dicts,
the `initPid` counter, and the metadata log of `emit_pid` calls. -/
structure AllocState where
  devices : List (AllocKey × Int)
  mem_devices : List (AllocKey × Int)
  nextPid : Int
  log : List LogEntry

/-- Assign the next pid to `key` in the `devices` table
(`pid = initPid; initPid += 1; devices[key] = pid; emit_pid(...)`). -/
def assignDev (st : AllocState) (key : AllocKey) : AllocState :=
  { devices := st.devices ++ [(key, st.nextPid)]
    mem_devices := st.mem_devices
    nextPid := st.nextPid + 1
    log := st.log ++ [⟨TrackKind.dev, key, st.nextPid⟩] }

/-- Assign the next pid to `key` in the `mem_devices` table. -/
def assignMem (st : AllocState) (key : AllocKey) : AllocState :=
  { devices := st.devices
    mem_devices := st.mem_devices ++ [(key, st.nextPid)]
    nextPid := st.nextPid + 1
    log := st.log ++ [⟨TrackKind.mem, key, st.nextPid⟩] }

/-- The `for event in profile_pb.events` loop of `_allocate_pids`: CPU keys
are assigned on first sight; GPUKernel keys only when the event's device is
the rendered `gpuId`. -/
def allocPidsEvents (rank : Nat) (gpuId : Int) : AllocState → List TraceEvent → AllocState
  | st, [] => st
  | st, e :: rest =>
    match e.type with
    | EvType.CPU =>
      if (⟨rank, e.device_id, "CPU"⟩ : AllocKey) ∈ st.devices.map Prod.fst then
        allocPidsEvents rank gpuId st rest
      else
        allocPidsEvents rank gpuId (assignDev st ⟨rank, e.device_id, "CPU"⟩) rest
    | EvType.GPUKernel =>
      if (⟨rank, e.device_id, "GPUKernel"⟩ : AllocKey) ∈ st.devices.map Prod.fst then
        allocPidsEvents rank gpuId st rest
      else if gpuId = e.device_id then
        allocPidsEvents rank gpuId (assignDev st ⟨rank, e.device_id, "GPUKernel"⟩) rest
      else
        allocPidsEvents rank gpuId st rest

/-- The `if key not in mem_devices: pid = initPid; ... ; emit_pid` block,
shared by the memory catch-all assignments. -/
def memIfAbsent (s : AllocState) (key : AllocKey) : AllocState :=
  if key ∈ s.mem_devices.map Prod.fst then s else assignMem s key

/-- One iteration of the `for mevent in profile_pb.mem_events` loop: the
place-specific assignment (device-group-filtered for CUDA/CUDAPinned),
followed by the three unconditional device-0 catch-all assignments. -/
def allocMemStep (rank : Nat) (gpuId : Int) (st : AllocState) (m : MemEvent) : AllocState :=
  let st1 :=
    match m.place with
    | MemPlaceT.CUDAPlace =>
      if (⟨rank, m.device_id, "GPU"⟩ : AllocKey) ∈ st.mem_devices.map Prod.fst then st
      else if gpuId = m.device_id then assignMem st ⟨rank, m.device_id, "GPU"⟩
      else st
    | MemPlaceT.CPUPlace => memIfAbsent st ⟨rank, m.device_id, "CPU"⟩
    | MemPlaceT.CUDAPinnedPlace =>
      if (⟨rank, m.device_id, "CUDAPinnedPlace"⟩ : AllocKey) ∈ st.mem_devices.map Prod.fst then st
      else if gpuId = m.device_id then assignMem st ⟨rank, m.device_id, "CUDAPinnedPlace"⟩
      else st
  memIfAbsent (memIfAbsent (memIfAbsent st1 ⟨rank, 0, "CPU"⟩) ⟨rank, 0, "GPU"⟩)
    ⟨rank, 0, "CUDAPinnedPlace"⟩

/-- The memory-event loop of `_allocate_pids` for one rank. -/
def allocPidsMems (rank : Nat) (gpuId : Int) : AllocState → List MemEvent → AllocState
  | st, [] => st
  | st, m :: rest => allocPidsMems rank gpuId (allocMemStep rank gpuId st m) rest

/-- `_allocate_pids(profile_dict, gpuId, initPid)` (the pid/dict bookkeeping;
the human-readable label text is represented by the log entries). -/
def allocate_pids (profile : List RankRecord) (gpuId : Int) (initPid : Int) : AllocState :=
  profile.foldl
    (fun st r => allocPidsMems r.rankId gpuId (allocPidsEvents r.rankId gpuId st r.events) r.mem_events)
    ⟨[], [], initPid, []⟩

/-- `[start, start+1, ..., start+n-1]`: the pids handed out by a counter. -/
def intRange (start : Int) : Nat → List Int
  | 0 => []
  | n + 1 => start :: intRange (start + 1) n

/-- One timeline region emitted by `chrome_trace.emit_region` in
`_allocate_events` ('X'/'Op' phase and category are fixed by the call). -/
structure TraceRegion where
  ts : Int
  dur : Int
  pid : Int
  tid : Int
  name : String
  mem_bytes : Option Int
  detail_info : Option String
deriving DecidableEq

/-- Build the region for one kept event: `ts = align(start_ns)` (identity,
see header), `dur = end_ns - start_ns`, `tid = sub_device_id`, args with
optional `mem_bytes` (when positive) and `detail_info` (when non-empty). -/
def mkRegion (e : TraceEvent) (pid : Int) : TraceRegion :=
  ⟨e.start_ns, e.end_ns - e.start_ns, pid, e.sub_device_id, e.name,
    if 0 < e.memcopy_bytes then some e.memcopy_bytes else none,
    if e.detail_info = "" then none else some e.detail_info⟩

/-- The `type = "CPU" / "GPUKernel"` string of `_allocate_events`. -/
def evTypeStr : EvType → String
  | EvType.CPU => "CPU"
  | EvType.GPUKernel => "GPUKernel"

/-- The event loop of `_allocate_events` for one rank: skip a GPUKernel event
only when its device is off-group AND the rank is off-group; otherwise
resolve `devices[(k, device_id, type)]` (KeyError = `none`) and emit. -/
def projectEvents (rank : Nat) (devices : List (AllocKey × Int)) (gpuId : Int) (gpt : Nat) :
    List TraceEvent → Option (List TraceRegion)
  | [] => some []
  | e :: rest =>
    if e.type = EvType.GPUKernel ∧ e.device_id ≠ gpuId ∧ ((rank % gpt : Nat) : Int) ≠ gpuId then
      projectEvents rank devices gpuId gpt rest
    else
      match assocFind ⟨rank, e.device_id, evTypeStr e.type⟩ devices with
      | none => none
      | some pid =>
        (projectEvents rank devices gpuId gpt rest).map (fun tl => mkRegion e pid :: tl)

/-- `_allocate_events(profile_dict, devices, gpuId)` over all ranks
(`rankId = int(k.split(".")[-1])`; `gpt` is `self._gpuPerTrainer`). -/
def allocate_events (profile : List RankRecord) (devices : List (AllocKey × Int))
    (gpuId : Int) (gpt : Nat) : Option (List TraceRegion) :=
  match profile with
  | [] => some []
  | r :: rest =>
    match projectEvents r.rankId devices gpuId gpt r.events with
    | none => none
    | some rs => (allocate_events rest devices gpuId gpt).map (fun tl => rs ++ tl)

/-- The `for k, profile_pb in profile_dict.items()` loop of
`_allocate_memory_event`.  A rank is skipped when
`trainerId = rankId / gpuPerTrainer` (true division) is at least
`displaySize`, i.e. `displaySize * gpt ≤ rankId`; each kept rank's samples
are appended to the shared formatter. -/
def allocMemEventRanks (gpt displaySize : Nat) (gpuId : Int)
    (memDevices : List (AllocKey × Int)) : List RankRecord → Option (List CounterSample)
  | [] => some []
  | r :: rest =>
    if displaySize * gpt ≤ r.rankId then
      allocMemEventRanks gpt displaySize gpuId memDevices rest
    else
      match memRankSeries gpuId r.rankId memDevices r.mem_events with
      | none => none
      | some ss =>
        (allocMemEventRanks gpt displaySize gpuId memDevices rest).map (fun tl => ss ++ tl)

/-- `_allocate_memory_event(profile_dict, mem_devices, gpuId)`.
`hasSchema` models `hasattr(profiler_pb2, "MemEvent")`: when false the
function body is `return` — it returns Python `None`, modelled `none`. -/
def allocate_memory_event (hasSchema : Bool) (gpt displaySize : Nat) (gpuId : Int)
    (memDevices : List (AllocKey × Int)) (profile : List RankRecord) :
    Option (List CounterSample) :=
  if hasSchema = false then none
  else allocMemEventRanks gpt displaySize gpuId memDevices profile

/-- The trace assembly of `_getOPTraceInfoByGpuId` (lines 450–453):
`metaTrace._metadata + eventsTrace._events + memEventsTrace._events`.
When `_allocate_memory_event` returned `None` (or `_allocate_events`
raised), the attribute access itself raises, modelled by `none`. -/
def assembleOpTrace (metadata : List LogEntry) (events : Option (List TraceRegion))
    (mem : Option (List CounterSample)) :
    Option (List LogEntry × List TraceRegion × List CounterSample) :=
  match events, mem with
  | some es, some ms => some (metadata, es, ms)
  | _, _ => none

/- ------------------------------------------------------------------ -/
/- Stable-sort lemmas                                                  -/
/- ------------------------------------------------------------------ -/

theorem insLe_all_le {α : Type} (key : α → Int) (e : α) (acc : List α)
    (h : ∀ x ∈ acc, key x ≤ key e) : insLe key e acc = acc ++ [e] := by
  induction acc with
  | nil => rfl
  | cons x xs ih =>
    have hx : key x ≤ key e := h x (List.mem_cons_self x xs)
    simp only [insLe, if_pos hx]
    rw [ih (fun y hy => h y (List.mem_cons_of_mem x hy))]
    rfl

theorem foldl_insLe_sorted {α : Type} (key : α → Int) :
    ∀ (l acc : List α), (∀ x ∈ acc, ∀ y ∈ l, key x ≤ key y) →
      List.Pairwise (fun a b => key a ≤ key b) l →
      List.foldl (fun acc e => insLe key e acc) acc l = acc ++ l := by
  intro l
  induction l with
  | nil => intro acc _ _; simp
  | cons e rest ih =>
    intro acc hacc hp
    have h1 : insLe key e acc = acc ++ [e] :=
      insLe_all_le key e acc (fun x hx => hacc x hx e (List.mem_cons_self e rest))
    have hp' := List.pairwise_cons.mp hp
    simp only [List.foldl_cons, h1]
    rw [ih (acc ++ [e]) ?_ hp'.2]
    · simp
    · intro x hx y hy
      rcases List.mem_append.mp hx with h | h
      · exact hacc x h y (List.mem_cons_of_mem e hy)
      · have hx' : x = e := by simpa using h
        subst hx'
        exact hp'.1 y hy

theorem stableSortBy_eq_self {α : Type} (key : α → Int) (l : List α)
    (hp : List.Pairwise (fun a b => key a ≤ key b) l) : stableSortBy key l = l := by
  unfold stableSortBy
  rw [foldl_insLe_sorted key l [] (by simp) hp]
  simp

theorem mem_insLe {α : Type} (key : α → Int) (e : α) (acc : List α) (x : α) :
    x ∈ insLe key e acc ↔ x = e ∨ x ∈ acc := by
  induction acc with
  | nil => simp [insLe]
  | cons y ys ih =>
    by_cases h : key y ≤ key e
    · simp only [insLe, if_pos h, List.mem_cons, ih]
      tauto
    · simp only [insLe, if_neg h, List.mem_cons]

theorem insLe_pairwise {α : Type} (key : α → Int) (e : α) (acc : List α)
    (h : List.Pairwise (fun a b => key a ≤ key b) acc) :
    List.Pairwise (fun a b => key a ≤ key b) (insLe key e acc) := by
  induction acc with
  | nil => simp [insLe]
  | cons y ys ih =>
    rcases List.pairwise_cons.mp h with ⟨hy, hys⟩
    by_cases hk : key y ≤ key e
    · simp only [insLe, if_pos hk]
      refine List.pairwise_cons.mpr ⟨?_, ih hys⟩
      intro z hz
      rcases (mem_insLe key e ys z).mp hz with rfl | hz'
      · exact hk
      · exact hy z hz'
    · simp only [insLe, if_neg hk]
      refine List.pairwise_cons.mpr ⟨?_, h⟩
      intro z hz
      rcases List.mem_cons.mp hz with rfl | hz'
      · exact le_of_not_le hk
      · exact le_trans (le_of_not_le hk) (hy z hz')

theorem stableSortBy_sorted {α : Type} (key : α → Int) (l : List α) :
    List.Pairwise (fun a b => key a ≤ key b) (stableSortBy key l) := by
  unfold stableSortBy
  suffices h : ∀ acc, List.Pairwise (fun a b => key a ≤ key b) acc →
      List.Pairwise (fun a b => key a ≤ key b)
        (List.foldl (fun acc e => insLe key e acc) acc l) by
    exact h [] List.Pairwise.nil
  induction l with
  | nil => intro acc hacc; simpa using hacc
  | cons e rest ih =>
    intro acc hacc
    simp only [List.foldl_cons]
    exact ih (insLe key e acc) (insLe_pairwise key e acc hacc)

theorem insLe_perm {α : Type} (key : α → Int) (e : α) (acc : List α) :
    (insLe key e acc).Perm (e :: acc) := by
  induction acc with
  | nil => simp [insLe]
  | cons y ys ih =>
    by_cases h : key y ≤ key e
    · simp only [insLe, if_pos h]
      exact (ih.cons y).trans (List.Perm.swap e y ys)
    · simp [insLe, h]

theorem stableSortBy_perm {α : Type} (key : α → Int) (l : List α) :
    (stableSortBy key l).Perm l := by
  unfold stableSortBy
  suffices h : ∀ acc, (List.foldl (fun acc e => insLe key e acc) acc l).Perm (acc ++ l) by
    simpa using h []
  induction l with
  | nil => intro acc; simp
  | cons e rest ih =>
    intro acc
    simp only [List.foldl_cons]
    refine (ih (insLe key e acc)).trans ?_
    refine (List.Perm.append_right rest (insLe_perm key e acc)).trans ?_
    exact List.perm_middle.symm

/- ------------------------------------------------------------------ -/
/- Coalescing-scan lemmas                                              -/
/- ------------------------------------------------------------------ -/

theorem sumSizesUpTo_nil (t : Int) : sumSizesUpTo [] t = 0 := rfl

theorem sumSizesUpTo_cons (d : MemDelta) (ds : List MemDelta) (t : Int) :
    sumSizesUpTo (d :: ds) t =
      (if d.time ≤ t then d.size else 0) + sumSizesUpTo ds t := by
  by_cases h : d.time ≤ t
  · simp [sumSizesUpTo, List.filter_cons, h]
  · simp [sumSizesUpTo, List.filter_cons, h]

theorem sumSizesUpTo_eq_zero (ds : List MemDelta) (t : Int)
    (h : ∀ d ∈ ds, ¬ d.time ≤ t) : sumSizesUpTo ds t = 0 := by
  induction ds with
  | nil => rfl
  | cons d rest ih =>
    rw [sumSizesUpTo_cons, if_neg (h d (List.mem_cons_self d rest)),
      ih (fun x hx => h x (List.mem_cons_of_mem d hx))]
    ring

theorem coalesce1_ts_ge : ∀ (rest : List MemDelta) (cur : MemDelta) (total : Int),
    List.Pairwise (fun a b : MemDelta => a.time ≤ b.time) (cur :: rest) →
    ∀ s ∈ coalesce1 cur total rest, cur.time ≤ s.ts := by
  intro rest
  induction rest with
  | nil =>
    intro cur total _ s hs
    simp only [coalesce1, List.mem_singleton] at hs
    subst hs
    exact le_refl _
  | cons d rest ih =>
    intro cur total h s hs
    have hcd : cur.time ≤ d.time :=
      (List.pairwise_cons.mp h).1 d (List.mem_cons_self d rest)
    have hd := (List.pairwise_cons.mp h).2
    by_cases ht : d.time = cur.time
    · simp only [coalesce1, if_pos ht] at hs
      exact le_trans hcd (ih d (total + d.size) hd s hs)
    · simp only [coalesce1, if_neg ht] at hs
      rcases List.mem_cons.mp hs with rfl | hs'
      · exact le_refl _
      · exact le_trans hcd (ih d (total + d.size) hd s hs')

theorem coalesce1_value : ∀ (rest : List MemDelta) (cur : MemDelta) (total : Int),
    List.Pairwise (fun a b : MemDelta => a.time ≤ b.time) (cur :: rest) →
    ∀ s ∈ coalesce1 cur total rest, s.value = total + sumSizesUpTo rest s.ts := by
  intro rest
  induction rest with
  | nil =>
    intro cur total _ s hs
    simp only [coalesce1, List.mem_singleton] at hs
    subst hs
    simp [sumSizesUpTo_nil]
  | cons d rest ih =>
    intro cur total h s hs
    have hcd : cur.time ≤ d.time :=
      (List.pairwise_cons.mp h).1 d (List.mem_cons_self d rest)
    have hd := (List.pairwise_cons.mp h).2
    by_cases ht : d.time = cur.time
    · simp only [coalesce1, if_pos ht] at hs
      have hts : d.time ≤ s.ts := coalesce1_ts_ge rest d (total + d.size) hd s hs
      rw [ih d (total + d.size) hd s hs, sumSizesUpTo_cons, if_pos hts]
      ring
    · simp only [coalesce1, if_neg ht] at hs
      rcases List.mem_cons.mp hs with rfl | hs'
      · have hz : sumSizesUpTo (d :: rest) cur.time = 0 := by
          refine sumSizesUpTo_eq_zero _ _ ?_
          intro x hx
          have hcx : cur.time < d.time := lt_of_le_of_ne hcd (fun he => ht he.symm)
          rcases List.mem_cons.mp hx with rfl | hx'
          · exact not_le_of_lt hcx
          · have : d.time ≤ x.time := (List.pairwise_cons.mp hd).1 x hx'
            exact not_le_of_lt (lt_of_lt_of_le hcx this)
        simp [hz]
      · have hts : d.time ≤ s.ts := coalesce1_ts_ge rest d (total + d.size) hd s hs'
        rw [ih d (total + d.size) hd s hs', sumSizesUpTo_cons, if_pos hts]
        ring

theorem coalesceScan_value (l : List MemDelta) (total : Int)
    (h : List.Pairwise (fun a b : MemDelta => a.time ≤ b.time) l) :
    ∀ s ∈ coalesceScan total l, s.value = total + sumSizesUpTo l s.ts := by
  cases l with
  | nil => intro s hs; simp [coalesceScan] at hs
  | cons d rest =>
    intro s hs
    simp only [coalesceScan] at hs
    have hts : d.time ≤ s.ts := coalesce1_ts_ge rest d (total + d.size) h s hs
    rw [coalesce1_value rest d (total + d.size) h s hs, sumSizesUpTo_cons, if_pos hts]
    ring

theorem coalesce1_ts_strict : ∀ (rest : List MemDelta) (cur : MemDelta) (total : Int),
    List.Pairwise (fun a b : MemDelta => a.time ≤ b.time) (cur :: rest) →
    List.Pairwise (fun a b : CounterSample => a.ts < b.ts) (coalesce1 cur total rest) := by
  intro rest
  induction rest with
  | nil => intro cur total _; simp [coalesce1]
  | cons d rest ih =>
    intro cur total h
    have hcd : cur.time ≤ d.time :=
      (List.pairwise_cons.mp h).1 d (List.mem_cons_self d rest)
    have hd := (List.pairwise_cons.mp h).2
    by_cases ht : d.time = cur.time
    · simp only [coalesce1, if_pos ht]
      exact ih d (total + d.size) hd
    · simp only [coalesce1, if_neg ht]
      refine List.pairwise_cons.mpr ⟨?_, ih d (total + d.size) hd⟩
      intro s hs
      have hcx : cur.time < d.time := lt_of_le_of_ne hcd (fun he => ht he.symm)
      exact lt_of_lt_of_le hcx (coalesce1_ts_ge rest d (total + d.size) hd s hs)

theorem coalesceScan_ts_strict (l : List MemDelta) (total : Int)
    (h : List.Pairwise (fun a b : MemDelta => a.time ≤ b.time) l) :
    List.Pairwise (fun a b : CounterSample => a.ts < b.ts) (coalesceScan total l) := by
  cases l with
  | nil => simp [coalesceScan]
  | cons d rest => exact coalesce1_ts_strict rest d (total + d.size) h

theorem sumSizesUpTo_perm (ds ds' : List MemDelta) (t : Int) (h : ds.Perm ds') :
    sumSizesUpTo ds t = sumSizesUpTo ds' t := by
  unfold sumSizesUpTo
  exact ((h.filter _).map _).sum_eq

/- ------------------------------------------------------------------ -/
/- Track-allocation invariant                                          -/
/- ------------------------------------------------------------------ -/

/-- The allocator invariant: the shared pid counter trails the log, the pids
in the log are the consecutive integers from `initPid` in assignment order,
no (table, key) pair is ever assigned twice, and the two dicts are exactly
the log split by table. -/
def allocInv (initPid : Int) (st : AllocState) : Prop :=
  st.nextPid = initPid + (st.log.length : Int) ∧
  st.log.map LogEntry.pid = intRange initPid st.log.length ∧
  (st.log.map (fun e => (e.kind, e.key))).Nodup ∧
  st.devices =
    (st.log.filter (fun e => decide (e.kind = TrackKind.dev))).map (fun e => (e.key, e.pid)) ∧
  st.mem_devices =
    (st.log.filter (fun e => decide (e.kind = TrackKind.mem))).map (fun e => (e.key, e.pid))

theorem intRange_succ_right (s : Int) (n : Nat) :
    intRange s (n + 1) = intRange s n ++ [s + n] := by
  induction n generalizing s with
  | zero => simp [intRange]
  | succ n ih =>
    rw [intRange, ih (s + 1), intRange]
    simp only [List.cons_append, List.cons.injEq, true_and]
    congr 2
    push_cast
    ring

theorem logKey_not_mem (st : AllocState) (key : AllocKey) (kd : TrackKind)
    (hchar : (if kd = TrackKind.dev then st.devices else st.mem_devices) =
      (st.log.filter (fun e => decide (e.kind = kd))).map (fun e => (e.key, e.pid)))
    (hk : key ∉ (if kd = TrackKind.dev then st.devices else st.mem_devices).map Prod.fst) :
    (kd, key) ∉ st.log.map (fun e => (e.kind, e.key)) := by
  intro hmem
  apply hk
  rw [hchar]
  simp only [List.map_map, List.mem_map, Function.comp] at hmem ⊢
  obtain ⟨e, he, hpair⟩ := hmem
  have hkind : e.kind = kd := congrArg Prod.fst hpair
  have hkey : e.key = key := congrArg Prod.snd hpair
  exact ⟨e, List.mem_filter.mpr ⟨he, by simp [hkind]⟩, hkey⟩

theorem allocInv_assignDev (initPid : Int) (st : AllocState) (key : AllocKey)
    (h : allocInv initPid st) (hk : key ∉ st.devices.map Prod.fst) :
    allocInv initPid (assignDev st key) := by
  obtain ⟨h1, h2, h3, h4, h5⟩ := h
  have hnot : (TrackKind.dev, key) ∉ st.log.map (fun e => (e.kind, e.key)) :=
    logKey_not_mem st key TrackKind.dev (by simpa using h4) (by simpa using hk)
  refine ⟨?_, ?_, ?_, ?_, ?_⟩
  · simp only [assignDev, List.length_append, List.length_singleton]
    rw [h1]
    push_cast
    ring
  · simp only [assignDev, List.map_append, List.map_cons, List.map_nil,
      List.length_append, List.length_singleton, h2]
    rw [intRange_succ_right, h1]
  · simp only [assignDev, List.map_append, List.map_cons, List.map_nil]
    rw [List.nodup_append]
    exact ⟨h3, List.nodup_singleton _, by simpa [List.disjoint_singleton] using hnot⟩
  · simp only [assignDev, List.filter_append, List.map_append]
    rw [← h4]
    congr 1
  · simp only [assignDev, List.filter_append, List.map_append]
    rw [← h5]
    simp [List.filter_cons]

theorem allocInv_assignMem (initPid : Int) (st : AllocState) (key : AllocKey)
    (h : allocInv initPid st) (hk : key ∉ st.mem_devices.map Prod.fst) :
    allocInv initPid (assignMem st key) := by
  obtain ⟨h1, h2, h3, h4, h5⟩ := h
  have hnot : (TrackKind.mem, key) ∉ st.log.map (fun e => (e.kind, e.key)) :=
    logKey_not_mem st key TrackKind.mem (by simpa using h5) (by simpa using hk)
  refine ⟨?_, ?_, ?_, ?_, ?_⟩
  · simp only [assignMem, List.length_append, List.length_singleton]
    rw [h1]
    push_cast
    ring
  · simp only [assignMem, List.map_append, List.map_cons, List.map_nil,
      List.length_append, List.length_singleton, h2]
    rw [intRange_succ_right, h1]
  · simp only [assignMem, List.map_append, List.map_cons, List.map_nil]
    rw [List.nodup_append]
    exact ⟨h3, List.nodup_singleton _, by simpa [List.disjoint_singleton] using hnot⟩
  · simp only [assignMem, List.filter_append, List.map_append]
    rw [← h4]
    simp [List.filter_cons]
  · simp only [assignMem, List.filter_append, List.map_append]
    rw [← h5]
    congr 1

theorem allocInv_allocPidsEvents (initPid : Int) (rank : Nat) (gpuId : Int) :
    ∀ (l : List TraceEvent) (st : AllocState), allocInv initPid st →
      allocInv initPid (allocPidsEvents rank gpuId st l) := by
  intro l
  induction l with
  | nil => intro st h; exact h
  | cons e rest ih =>
    intro st h
    cases he : e.type with
    | CPU =>
      simp only [allocPidsEvents, he]
      by_cases hk : (⟨rank, e.device_id, "CPU"⟩ : AllocKey) ∈ st.devices.map Prod.fst
      · rw [if_pos hk]; exact ih st h
      · rw [if_neg hk]; exact ih _ (allocInv_assignDev initPid st _ h hk)
    | GPUKernel =>
      simp only [allocPidsEvents, he]
      by_cases hk : (⟨rank, e.device_id, "GPUKernel"⟩ : AllocKey) ∈ st.devices.map Prod.fst
      · rw [if_pos hk]; exact ih st h
      · rw [if_neg hk]
        by_cases hg : gpuId = e.device_id
        · rw [if_pos hg]; exact ih _ (allocInv_assignDev initPid st _ h hk)
        · rw [if_neg hg]; exact ih st h

theorem allocInv_memIf (initPid : Int) (s : AllocState) (key : AllocKey)
    (hs : allocInv initPid s) : allocInv initPid (memIfAbsent s key) := by
  unfold memIfAbsent
  by_cases hk : key ∈ s.mem_devices.map Prod.fst
  · rw [if_pos hk]; exact hs
  · rw [if_neg hk]; exact allocInv_assignMem initPid s key hs hk

theorem allocInv_allocMemStep (initPid : Int) (rank : Nat) (gpuId : Int) (st : AllocState)
    (m : MemEvent) (h : allocInv initPid st) :
    allocInv initPid (allocMemStep rank gpuId st m) := by
  cases hm : m.place with
  | CUDAPlace =>
    simp only [allocMemStep, hm]
    refine allocInv_memIf initPid _ _ (allocInv_memIf initPid _ _ (allocInv_memIf initPid _ _ ?_))
    by_cases hk : (⟨rank, m.device_id, "GPU"⟩ : AllocKey) ∈ st.mem_devices.map Prod.fst
    · rw [if_pos hk]; exact h
    · rw [if_neg hk]
      by_cases hg : gpuId = m.device_id
      · rw [if_pos hg]; exact allocInv_assignMem initPid st _ h hk
      · rw [if_neg hg]; exact h
  | CPUPlace =>
    simp only [allocMemStep, hm]
    refine allocInv_memIf initPid _ _ (allocInv_memIf initPid _ _ (allocInv_memIf initPid _ _ ?_))
    exact allocInv_memIf initPid st _ h
  | CUDAPinnedPlace =>
    simp only [allocMemStep, hm]
    refine allocInv_memIf initPid _ _ (allocInv_memIf initPid _ _ (allocInv_memIf initPid _ _ ?_))
    by_cases hk : (⟨rank, m.device_id, "CUDAPinnedPlace"⟩ : AllocKey) ∈ st.mem_devices.map Prod.fst
    · rw [if_pos hk]; exact h
    · rw [if_neg hk]
      by_cases hg : gpuId = m.device_id
      · rw [if_pos hg]; exact allocInv_assignMem initPid st _ h hk
      · rw [if_neg hg]; exact h

theorem allocInv_allocPidsMems (initPid : Int) (rank : Nat) (gpuId : Int) :
    ∀ (l : List MemEvent) (st : AllocState), allocInv initPid st →
      allocInv initPid (allocPidsMems rank gpuId st l) := by
  intro l
  induction l with
  | nil => intro st h; exact h
  | cons m rest ih =>
    intro st h
    exact ih _ (allocInv_allocMemStep initPid rank gpuId st m h)

theorem allocInv_init (initPid : Int) : allocInv initPid ⟨[], [], initPid, []⟩ := by
  refine ⟨by simp, by simp [intRange], by simp, by simp, by simp⟩

theorem memIfAbsent_mem_app (s : AllocState) (key : AllocKey) :
    ∃ a, (memIfAbsent s key).mem_devices = s.mem_devices ++ a := by
  unfold memIfAbsent
  by_cases hk : key ∈ s.mem_devices.map Prod.fst
  · exact ⟨[], by simp [hk]⟩
  · exact ⟨[(key, s.nextPid)], by simp [hk, assignMem]⟩

theorem memIfAbsent_devices (s : AllocState) (key : AllocKey) :
    (memIfAbsent s key).devices = s.devices := by
  unfold memIfAbsent
  by_cases hk : key ∈ s.mem_devices.map Prod.fst
  · simp [hk]
  · simp [hk, assignMem]

theorem memIfAbsent_key (s : AllocState) (key : AllocKey) :
    key ∈ (memIfAbsent s key).mem_devices.map Prod.fst := by
  unfold memIfAbsent
  by_cases hk : key ∈ s.mem_devices.map Prod.fst
  · rw [if_pos hk]; exact hk
  · simp [hk, assignMem]

theorem mem_of_mem_app {k : AllocKey} {l a : List (AllocKey × Int)}
    (h : k ∈ l.map Prod.fst) : k ∈ (l ++ a).map Prod.fst := by
  simp only [List.map_append, List.mem_append]
  exact Or.inl h

theorem allocMemStep_mem_app (rank : Nat) (gpuId : Int) (st : AllocState) (m : MemEvent) :
    ∃ a, (allocMemStep rank gpuId st m).mem_devices = st.mem_devices ++ a := by
  have hstep : ∀ (s : AllocState), (∃ a, s.mem_devices = st.mem_devices ++ a) →
      ∀ key, ∃ a, (memIfAbsent s key).mem_devices = st.mem_devices ++ a := by
    intro s hs key
    obtain ⟨a, ha⟩ := hs
    obtain ⟨b, hb⟩ := memIfAbsent_mem_app s key
    exact ⟨a ++ b, by rw [hb, ha, List.append_assoc]⟩
  have h1 : ∃ a, (match m.place with
    | MemPlaceT.CUDAPlace =>
      if (⟨rank, m.device_id, "GPU"⟩ : AllocKey) ∈ st.mem_devices.map Prod.fst then st
      else if gpuId = m.device_id then assignMem st ⟨rank, m.device_id, "GPU"⟩
      else st
    | MemPlaceT.CPUPlace => memIfAbsent st ⟨rank, m.device_id, "CPU"⟩
    | MemPlaceT.CUDAPinnedPlace =>
      if (⟨rank, m.device_id, "CUDAPinnedPlace"⟩ : AllocKey) ∈ st.mem_devices.map Prod.fst then st
      else if gpuId = m.device_id then assignMem st ⟨rank, m.device_id, "CUDAPinnedPlace"⟩
      else st).mem_devices = st.mem_devices ++ a := by
    cases m.place with
    | CUDAPlace =>
      by_cases hk : (⟨rank, m.device_id, "GPU"⟩ : AllocKey) ∈ st.mem_devices.map Prod.fst
      · exact ⟨[], by simp [hk]⟩
      · by_cases hg : gpuId = m.device_id
        · exact ⟨[(⟨rank, m.device_id, "GPU"⟩, st.nextPid)], by simp [hk, hg, assignMem]⟩
        · exact ⟨[], by simp [hk, hg]⟩
    | CPUPlace => exact memIfAbsent_mem_app st _
    | CUDAPinnedPlace =>
      by_cases hk : (⟨rank, m.device_id, "CUDAPinnedPlace"⟩ : AllocKey) ∈ st.mem_devices.map Prod.fst
      · exact ⟨[], by simp [hk]⟩
      · by_cases hg : gpuId = m.device_id
        · exact ⟨[(⟨rank, m.device_id, "CUDAPinnedPlace"⟩, st.nextPid)],
            by simp [hk, hg, assignMem]⟩
        · exact ⟨[], by simp [hk, hg]⟩
  exact hstep _ (hstep _ (hstep _ h1 _) _) _

theorem allocMemStep_devices (rank : Nat) (gpuId : Int) (st : AllocState) (m : MemEvent) :
    (allocMemStep rank gpuId st m).devices = st.devices := by
  have h1 : ∀ (s : AllocState) (key : AllocKey),
      (memIfAbsent s key).devices = s.devices := memIfAbsent_devices
  cases hm : m.place with
  | CUDAPlace =>
    simp only [allocMemStep, hm, h1]
    by_cases hk : (⟨rank, m.device_id, "GPU"⟩ : AllocKey) ∈ st.mem_devices.map Prod.fst
    · simp [hk]
    · by_cases hg : gpuId = m.device_id
      · simp [hk, hg, assignMem]
      · simp [hk, hg]
  | CPUPlace =>
    simp only [allocMemStep, hm, h1, memIfAbsent_devices]
  | CUDAPinnedPlace =>
    simp only [allocMemStep, hm, h1]
    by_cases hk : (⟨rank, m.device_id, "CUDAPinnedPlace"⟩ : AllocKey) ∈ st.mem_devices.map Prod.fst
    · simp [hk]
    · by_cases hg : gpuId = m.device_id
      · simp [hk, hg, assignMem]
      · simp [hk, hg]

theorem allocMemStep_catchall (rank : Nat) (gpuId : Int) (st : AllocState) (m : MemEvent) :
    (⟨rank, 0, "CPU"⟩ : AllocKey) ∈ (allocMemStep rank gpuId st m).mem_devices.map Prod.fst ∧
    (⟨rank, 0, "GPU"⟩ : AllocKey) ∈ (allocMemStep rank gpuId st m).mem_devices.map Prod.fst ∧
    (⟨rank, 0, "CUDAPinnedPlace"⟩ : AllocKey) ∈
      (allocMemStep rank gpuId st m).mem_devices.map Prod.fst := by
  unfold allocMemStep
  refine ⟨?_, ?_, memIfAbsent_key _ _⟩
  · obtain ⟨a, ha⟩ := memIfAbsent_mem_app (memIfAbsent _ ⟨rank, 0, "GPU"⟩) ⟨rank, 0, "CUDAPinnedPlace"⟩
    rw [ha]
    apply mem_of_mem_app
    obtain ⟨b, hb⟩ := memIfAbsent_mem_app (memIfAbsent _ ⟨rank, 0, "CPU"⟩) ⟨rank, 0, "GPU"⟩
    rw [hb]
    exact mem_of_mem_app (memIfAbsent_key _ _)
  · obtain ⟨a, ha⟩ := memIfAbsent_mem_app (memIfAbsent _ ⟨rank, 0, "GPU"⟩) ⟨rank, 0, "CUDAPinnedPlace"⟩
    rw [ha]
    exact mem_of_mem_app (memIfAbsent_key _ _)

theorem allocPidsMems_mem_app (rank : Nat) (gpuId : Int) :
    ∀ (l : List MemEvent) (st : AllocState),
      ∃ a, (allocPidsMems rank gpuId st l).mem_devices = st.mem_devices ++ a := by
  intro l
  induction l with
  | nil => intro st; exact ⟨[], by simp [allocPidsMems]⟩
  | cons m rest ih =>
    intro st
    obtain ⟨a, ha⟩ := allocMemStep_mem_app rank gpuId st m
    obtain ⟨b, hb⟩ := ih (allocMemStep rank gpuId st m)
    exact ⟨a ++ b, by rw [allocPidsMems, hb, ha, List.append_assoc]⟩

theorem allocPidsMems_devices (rank : Nat) (gpuId : Int) :
    ∀ (l : List MemEvent) (st : AllocState),
      (allocPidsMems rank gpuId st l).devices = st.devices := by
  intro l
  induction l with
  | nil => intro st; rfl
  | cons m rest ih =>
    intro st
    rw [allocPidsMems, ih, allocMemStep_devices]

theorem allocPidsMems_catchall (rank : Nat) (gpuId : Int) (l : List MemEvent)
    (st : AllocState) (hne : l ≠ []) :
    (⟨rank, 0, "CPU"⟩ : AllocKey) ∈ (allocPidsMems rank gpuId st l).mem_devices.map Prod.fst ∧
    (⟨rank, 0, "GPU"⟩ : AllocKey) ∈ (allocPidsMems rank gpuId st l).mem_devices.map Prod.fst ∧
    (⟨rank, 0, "CUDAPinnedPlace"⟩ : AllocKey) ∈
      (allocPidsMems rank gpuId st l).mem_devices.map Prod.fst := by
  cases l with
  | nil => exact absurd rfl hne
  | cons m rest =>
    rw [allocPidsMems]
    obtain ⟨a, ha⟩ := allocPidsMems_mem_app rank gpuId rest (allocMemStep rank gpuId st m)
    rw [ha]
    obtain ⟨h1, h2, h3⟩ := allocMemStep_catchall rank gpuId st m
    exact ⟨mem_of_mem_app h1, mem_of_mem_app h2, mem_of_mem_app h3⟩

theorem allocPidsEvents_mem_devices (rank : Nat) (gpuId : Int) :
    ∀ (l : List TraceEvent) (st : AllocState),
      (allocPidsEvents rank gpuId st l).mem_devices = st.mem_devices := by
  intro l
  induction l with
  | nil => intro st; rfl
  | cons e rest ih =>
    intro st
    cases he : e.type with
    | CPU =>
      simp only [allocPidsEvents, he]
      by_cases hk : (⟨rank, e.device_id, "CPU"⟩ : AllocKey) ∈ st.devices.map Prod.fst
      · rw [if_pos hk, ih]
      · rw [if_neg hk, ih]; rfl
    | GPUKernel =>
      simp only [allocPidsEvents, he]
      by_cases hk : (⟨rank, e.device_id, "GPUKernel"⟩ : AllocKey) ∈ st.devices.map Prod.fst
      · rw [if_pos hk, ih]
      · rw [if_neg hk]
        by_cases hg : gpuId = e.device_id
        · rw [if_pos hg, ih]; rfl
        · rw [if_neg hg, ih]

theorem allocPidsEvents_dev_app (rank : Nat) (gpuId : Int) :
    ∀ (l : List TraceEvent) (st : AllocState),
      ∃ a, (allocPidsEvents rank gpuId st l).devices = st.devices ++ a := by
  intro l
  induction l with
  | nil => intro st; exact ⟨[], by simp [allocPidsEvents]⟩
  | cons e rest ih =>
    intro st
    cases he : e.type with
    | CPU =>
      simp only [allocPidsEvents, he]
      by_cases hk : (⟨rank, e.device_id, "CPU"⟩ : AllocKey) ∈ st.devices.map Prod.fst
      · rw [if_pos hk]; exact ih st
      · rw [if_neg hk]
        obtain ⟨a, ha⟩ := ih (assignDev st ⟨rank, e.device_id, "CPU"⟩)
        refine ⟨[(⟨rank, e.device_id, "CPU"⟩, st.nextPid)] ++ a, ?_⟩
        rw [ha]
        show (st.devices ++ [(⟨rank, e.device_id, "CPU"⟩, st.nextPid)]) ++ a = _
        rw [List.append_assoc]
    | GPUKernel =>
      simp only [allocPidsEvents, he]
      by_cases hk : (⟨rank, e.device_id, "GPUKernel"⟩ : AllocKey) ∈ st.devices.map Prod.fst
      · rw [if_pos hk]; exact ih st
      · rw [if_neg hk]
        by_cases hg : gpuId = e.device_id
        · rw [if_pos hg]
          obtain ⟨a, ha⟩ := ih (assignDev st ⟨rank, e.device_id, "GPUKernel"⟩)
          refine ⟨[(⟨rank, e.device_id, "GPUKernel"⟩, st.nextPid)] ++ a, ?_⟩
          rw [ha]
          show (st.devices ++ [(⟨rank, e.device_id, "GPUKernel"⟩, st.nextPid)]) ++ a = _
          rw [List.append_assoc]
        · rw [if_neg hg]; exact ih st

theorem allocPidsEvents_key (rank : Nat) (gpuId : Int) :
    ∀ (l : List TraceEvent) (st : AllocState) (e : TraceEvent), e ∈ l →
      (e.type = EvType.CPU →
        (⟨rank, e.device_id, "CPU"⟩ : AllocKey) ∈
          (allocPidsEvents rank gpuId st l).devices.map Prod.fst) ∧
      (e.type = EvType.GPUKernel → gpuId = e.device_id →
        (⟨rank, e.device_id, "GPUKernel"⟩ : AllocKey) ∈
          (allocPidsEvents rank gpuId st l).devices.map Prod.fst) := by
  intro l
  induction l with
  | nil => intro st e he; exact absurd he (List.not_mem_nil e)
  | cons f rest ih =>
    intro st e he
    rcases List.mem_cons.mp he with rfl | he'
    · constructor
      · intro hty
        simp only [allocPidsEvents, hty]
        by_cases hk : (⟨rank, e.device_id, "CPU"⟩ : AllocKey) ∈ st.devices.map Prod.fst
        · rw [if_pos hk]
          obtain ⟨a, ha⟩ := allocPidsEvents_dev_app rank gpuId rest st
          rw [ha]
          exact mem_of_mem_app hk
        · rw [if_neg hk]
          obtain ⟨a, ha⟩ := allocPidsEvents_dev_app rank gpuId rest
            (assignDev st ⟨rank, e.device_id, "CPU"⟩)
          rw [ha]
          apply mem_of_mem_app
          simp [assignDev]
      · intro hty hg
        simp only [allocPidsEvents, hty]
        by_cases hk : (⟨rank, e.device_id, "GPUKernel"⟩ : AllocKey) ∈ st.devices.map Prod.fst
        · rw [if_pos hk]
          obtain ⟨a, ha⟩ := allocPidsEvents_dev_app rank gpuId rest st
          rw [ha]
          exact mem_of_mem_app hk
        · rw [if_neg hk, if_pos hg]
          obtain ⟨a, ha⟩ := allocPidsEvents_dev_app rank gpuId rest
            (assignDev st ⟨rank, e.device_id, "GPUKernel"⟩)
          rw [ha]
          apply mem_of_mem_app
          simp [assignDev]
    · cases hf : f.type with
      | CPU =>
        simp only [allocPidsEvents, hf]
        by_cases hk : (⟨rank, f.device_id, "CPU"⟩ : AllocKey) ∈ st.devices.map Prod.fst
        · rw [if_pos hk]; exact ih st e he'
        · rw [if_neg hk]; exact ih _ e he'
      | GPUKernel =>
        simp only [allocPidsEvents, hf]
        by_cases hk : (⟨rank, f.device_id, "GPUKernel"⟩ : AllocKey) ∈ st.devices.map Prod.fst
        · rw [if_pos hk]; exact ih st e he'
        · rw [if_neg hk]
          by_cases hg : gpuId = f.device_id
          · rw [if_pos hg]; exact ih _ e he'
          · rw [if_neg hg]; exact ih st e he'

theorem allocInv_allocate_pids (profile : List RankRecord) (gpuId : Int) (initPid : Int) :
    allocInv initPid (allocate_pids profile gpuId initPid) := by
  unfold allocate_pids
  suffices h : ∀ (st : AllocState), allocInv initPid st →
      allocInv initPid (profile.foldl
        (fun st r =>
          allocPidsMems r.rankId gpuId (allocPidsEvents r.rankId gpuId st r.events) r.mem_events)
        st) by
    exact h _ (allocInv_init initPid)
  induction profile with
  | nil => intro st h; exact h
  | cons r rest ih =>
    intro st h
    exact ih _ (allocInv_allocPidsMems initPid r.rankId gpuId r.mem_events _
      (allocInv_allocPidsEvents initPid r.rankId gpuId r.events st h))

theorem assocFind_isSome_iff {α β : Type} [DecidableEq α] (k : α) (m : List (α × β)) :
    (assocFind k m).isSome ↔ k ∈ m.map Prod.fst := by
  induction m with
  | nil => simp [assocFind]
  | cons p rest ih =>
    obtain ⟨k', v⟩ := p
    by_cases h : k' = k
    · subst h; simp [assocFind]
    · simp [assocFind, h, ih, Ne.symm h]

theorem pidsStep_mem_app (gpuId : Int) (st : AllocState) (r : RankRecord) :
    ∃ a, (allocPidsMems r.rankId gpuId
      (allocPidsEvents r.rankId gpuId st r.events) r.mem_events).mem_devices =
        st.mem_devices ++ a := by
  obtain ⟨a, ha⟩ :=
    allocPidsMems_mem_app r.rankId gpuId r.mem_events (allocPidsEvents r.rankId gpuId st r.events)
  rw [ha, allocPidsEvents_mem_devices]
  exact ⟨a, rfl⟩

theorem pidsStep_dev_app (gpuId : Int) (st : AllocState) (r : RankRecord) :
    ∃ a, (allocPidsMems r.rankId gpuId
      (allocPidsEvents r.rankId gpuId st r.events) r.mem_events).devices =
        st.devices ++ a := by
  rw [allocPidsMems_devices]
  exact allocPidsEvents_dev_app r.rankId gpuId r.events st

theorem pidsFold_mem_app (gpuId : Int) :
    ∀ (profile : List RankRecord) (st : AllocState),
      ∃ a, (profile.foldl
        (fun st r =>
          allocPidsMems r.rankId gpuId (allocPidsEvents r.rankId gpuId st r.events) r.mem_events)
        st).mem_devices = st.mem_devices ++ a := by
  intro profile
  induction profile with
  | nil => intro st; exact ⟨[], by simp⟩
  | cons r rest ih =>
    intro st
    obtain ⟨a, ha⟩ := pidsStep_mem_app gpuId st r
    obtain ⟨b, hb⟩ := ih (allocPidsMems r.rankId gpuId
      (allocPidsEvents r.rankId gpuId st r.events) r.mem_events)
    exact ⟨a ++ b, by rw [List.foldl_cons, hb, ha, List.append_assoc]⟩

theorem pidsFold_dev_app (gpuId : Int) :
    ∀ (profile : List RankRecord) (st : AllocState),
      ∃ a, (profile.foldl
        (fun st r =>
          allocPidsMems r.rankId gpuId (allocPidsEvents r.rankId gpuId st r.events) r.mem_events)
        st).devices = st.devices ++ a := by
  intro profile
  induction profile with
  | nil => intro st; exact ⟨[], by simp⟩
  | cons r rest ih =>
    intro st
    obtain ⟨a, ha⟩ := pidsStep_dev_app gpuId st r
    obtain ⟨b, hb⟩ := ih (allocPidsMems r.rankId gpuId
      (allocPidsEvents r.rankId gpuId st r.events) r.mem_events)
    exact ⟨a ++ b, by rw [List.foldl_cons, hb, ha, List.append_assoc]⟩

theorem allocate_pids_catchall (profile : List RankRecord) (gpuId : Int) (initPid : Int)
    (r : RankRecord) (hr : r ∈ profile) (hne : r.mem_events ≠ []) :
    (⟨r.rankId, 0, "CPU"⟩ : AllocKey) ∈
      (allocate_pids profile gpuId initPid).mem_devices.map Prod.fst ∧
    (⟨r.rankId, 0, "GPU"⟩ : AllocKey) ∈
      (allocate_pids profile gpuId initPid).mem_devices.map Prod.fst ∧
    (⟨r.rankId, 0, "CUDAPinnedPlace"⟩ : AllocKey) ∈
      (allocate_pids profile gpuId initPid).mem_devices.map Prod.fst := by
  obtain ⟨l1, l2, hsplit⟩ := List.append_of_mem hr
  unfold allocate_pids
  rw [hsplit, List.foldl_append, List.foldl_cons]
  obtain ⟨a, ha⟩ := pidsFold_mem_app gpuId l2 _
  rw [ha]
  obtain ⟨h1, h2, h3⟩ := allocPidsMems_catchall r.rankId gpuId r.mem_events
    (allocPidsEvents r.rankId gpuId
      (l1.foldl (fun st rr =>
        allocPidsMems rr.rankId gpuId (allocPidsEvents rr.rankId gpuId st rr.events) rr.mem_events)
        ⟨[], [], initPid, []⟩) r.events) hne
  exact ⟨mem_of_mem_app h1, mem_of_mem_app h2, mem_of_mem_app h3⟩

theorem allocate_pids_event_key (profile : List RankRecord) (gpuId : Int) (initPid : Int)
    (r : RankRecord) (e : TraceEvent) (hr : r ∈ profile) (he : e ∈ r.events) :
    (e.type = EvType.CPU →
      (⟨r.rankId, e.device_id, "CPU"⟩ : AllocKey) ∈
        (allocate_pids profile gpuId initPid).devices.map Prod.fst) ∧
    (e.type = EvType.GPUKernel → gpuId = e.device_id →
      (⟨r.rankId, e.device_id, "GPUKernel"⟩ : AllocKey) ∈
        (allocate_pids profile gpuId initPid).devices.map Prod.fst) := by
  obtain ⟨l1, l2, hsplit⟩ := List.append_of_mem hr
  unfold allocate_pids
  rw [hsplit, List.foldl_append, List.foldl_cons]
  obtain ⟨a, ha⟩ := pidsFold_dev_app gpuId l2 _
  rw [ha, allocPidsMems_devices]
  obtain ⟨h1, h2⟩ := allocPidsEvents_key r.rankId gpuId r.events
    (l1.foldl (fun st rr =>
      allocPidsMems rr.rankId gpuId (allocPidsEvents rr.rankId gpuId st rr.events) rr.mem_events)
      ⟨[], [], initPid, []⟩) e he
  exact ⟨fun ht => mem_of_mem_app (h1 ht), fun ht hg => mem_of_mem_app (h2 ht hg)⟩

theorem projectEvents_isSome (rank : Nat) (devices : List (AllocKey × Int))
    (gpuId : Int) (gpt : Nat) :
    ∀ (l : List TraceEvent),
      (∀ e ∈ l,
        (e.type = EvType.GPUKernel ∧ e.device_id ≠ gpuId ∧ ((rank % gpt : Nat) : Int) ≠ gpuId) ∨
        (⟨rank, e.device_id, evTypeStr e.type⟩ : AllocKey) ∈ devices.map Prod.fst) →
      ∃ rs, projectEvents rank devices gpuId gpt l = some rs := by
  intro l
  induction l with
  | nil => intro _; exact ⟨[], rfl⟩
  | cons e rest ih =>
    intro h
    obtain ⟨rs, hrs⟩ := ih (fun x hx => h x (List.mem_cons_of_mem e hx))
    by_cases hc : e.type = EvType.GPUKernel ∧ e.device_id ≠ gpuId ∧
        ((rank % gpt : Nat) : Int) ≠ gpuId
    · refine ⟨rs, ?_⟩
      simp only [projectEvents, if_pos hc]
      exact hrs
    · have hmem : (⟨rank, e.device_id, evTypeStr e.type⟩ : AllocKey) ∈ devices.map Prod.fst := by
        rcases h e (List.mem_cons_self e rest) with hsk | hm
        · exact absurd hsk hc
        · exact hm
      have hsome := (assocFind_isSome_iff (⟨rank, e.device_id, evTypeStr e.type⟩ : AllocKey)
        devices).mpr hmem
      obtain ⟨pid, hfind⟩ := Option.isSome_iff_exists.mp hsome
      refine ⟨mkRegion e pid :: rs, ?_⟩
      simp only [projectEvents, if_neg hc, hfind, hrs, Option.map_some']

theorem allocate_events_isSome (gpuId : Int) (gpt : Nat) :
    ∀ (profile : List RankRecord) (devices : List (AllocKey × Int)),
      (∀ r ∈ profile, ∀ e ∈ r.events,
        (e.type = EvType.GPUKernel ∧ e.device_id ≠ gpuId ∧
          ((r.rankId % gpt : Nat) : Int) ≠ gpuId) ∨
        (⟨r.rankId, e.device_id, evTypeStr e.type⟩ : AllocKey) ∈ devices.map Prod.fst) →
      ∃ rs, allocate_events profile devices gpuId gpt = some rs := by
  intro profile
  induction profile with
  | nil => intro devices _; exact ⟨[], rfl⟩
  | cons r rest ih =>
    intro devices h
    obtain ⟨rs1, hrs1⟩ := projectEvents_isSome r.rankId devices gpuId gpt r.events
      (h r (List.mem_cons_self r rest))
    obtain ⟨rs2, hrs2⟩ := ih devices (fun rr hrr => h rr (List.mem_cons_of_mem r hrr))
    refine ⟨rs1 ++ rs2, ?_⟩
    simp only [allocate_events, hrs1, hrs2, Option.map_some']

theorem allocMemEventRanks_empty (gpt displaySize : Nat) (gpuId : Int)
    (memDevices : List (AllocKey × Int)) :
    ∀ (profile : List RankRecord), (∀ r ∈ profile, r.mem_events = []) →
      allocMemEventRanks gpt displaySize gpuId memDevices profile = some [] := by
  intro profile
  induction profile with
  | nil => intro _; rfl
  | cons r rest ih =>
    intro hall
    have hr := hall r (List.mem_cons_self r rest)
    have ih' := ih (fun x hx => hall x (List.mem_cons_of_mem r hx))
    by_cases hd : displaySize * gpt ≤ r.rankId
    · simp only [allocMemEventRanks, if_pos hd]
      exact ih'
    · simp only [allocMemEventRanks, if_neg hd, hr]
      simp only [memRankSeries, expandMemList, Option.map_some']
      rw [ih']
      rfl

theorem allocate_memory_event_empty (gpt displaySize : Nat) (gpuId : Int)
    (memDevices : List (AllocKey × Int)) (profile : List RankRecord)
    (h : ∀ r ∈ profile, r.mem_events = []) :
    allocate_memory_event true gpt displaySize gpuId memDevices profile = some [] := by
  unfold allocate_memory_event
  rw [if_neg (by decide)]
  exact allocMemEventRanks_empty gpt displaySize gpuId memDevices profile h

/- ------------------------------------------------------------------ -/
/- Pipeline-reconstruction lemmas                                      -/
/- ------------------------------------------------------------------ -/

/-- An input made of consecutive begin/end marker pairs, flattened. -/
def flattenPairs : List (MarkerEvent × MarkerEvent) → List MarkerEvent
  | [] => []
  | (b, e) :: ps => b :: e :: flattenPairs ps

/-- The span the specification predicts for a begin/end pair: duration
`end.ts - begin.ts`, name = the phase token of the begin tag, classified
good exactly for the backward phase. -/
def expectedSpan (pid tid : Int) (p : MarkerEvent × MarkerEvent) : PipelineSpan :=
  if p.1.detail_info = "marker_forward_B" then
    ⟨p.1.ts, p.2.ts - p.1.ts, "forward", "bad", pid, tid⟩
  else
    ⟨p.1.ts, p.2.ts - p.1.ts, "backward", "good", pid, tid⟩

theorem fbScan_pairs (pid tid : Int) :
    ∀ (ps : List (MarkerEvent × MarkerEvent)) (st : Option MarkerEvent),
      (∀ p ∈ ps, p.1.detail_info = "marker_forward_B" ∨ p.1.detail_info = "marker_backward_B") →
      (∀ p ∈ ps, p.2.detail_info = "marker_forward_E" ∨ p.2.detail_info = "marker_backward_E") →
      fbScan pid tid (flattenPairs ps) st = some (ps.map (expectedSpan pid tid)) := by
  intro ps
  induction ps with
  | nil => intro st _ _; rfl
  | cons p ps ih =>
    intro st hB hE
    obtain ⟨b, e⟩ := p
    have hb := hB (b, e) (List.mem_cons_self _ _)
    have he := hE (b, e) (List.mem_cons_self _ _)
    have hB' : ∀ q ∈ ps,
        q.1.detail_info = "marker_forward_B" ∨ q.1.detail_info = "marker_backward_B" :=
      fun q hq => hB q (List.mem_cons_of_mem _ hq)
    have hE' : ∀ q ∈ ps,
        q.2.detail_info = "marker_forward_E" ∨ q.2.detail_info = "marker_backward_E" :=
      fun q hq => hE q (List.mem_cons_of_mem _ hq)
    have hbE : endsWithE b.detail_info = false := by
      rcases hb with h | h <;> rw [h] <;> decide
    have heE : endsWithE e.detail_info = true := by
      rcases he with h | h <;> rw [h] <;> decide
    show fbScan pid tid (b :: e :: flattenPairs ps) st = _
    rcases hb with h | h
    · have hn : pyPhaseName b.detail_info = some "forward" := by rw [h]; decide
      simp only [fbScan, hbE, Bool.false_eq_true, if_false, heE, if_true, hn,
        ih (some ⟨b.ts, "forward"⟩) hB' hE', Option.map_some', List.map_cons]
      simp only [expectedSpan]
      rw [if_pos h]
      have hc : (if ("forward" : String) = "backward" then ("good" : String) else "bad") = "bad" := by
        decide
      rw [hc]
    · have hn : pyPhaseName b.detail_info = some "backward" := by rw [h]; decide
      simp only [fbScan, hbE, Bool.false_eq_true, if_false, heE, if_true, hn,
        ih (some ⟨b.ts, "backward"⟩) hB' hE', Option.map_some', List.map_cons]
      simp only [expectedSpan]
      rw [if_neg (by rw [h]; decide)]

/- ------------------------------------------------------------------ -/
/- Merge lemmas                                                        -/
/- ------------------------------------------------------------------ -/

theorem assocFind_extendVal (g k : Nat) (v : List PLEntry) (m : List (Nat × List PLEntry)) :
    assocFind k (extendVal g v m) =
      if k = g then (assocFind k m).map (fun l => l ++ v) else assocFind k m := by
  induction m with
  | nil => by_cases h : k = g <;> simp [extendVal, assocFind, h]
  | cons p rest ih =>
    obtain ⟨k', l⟩ := p
    by_cases h1 : k' = g
    · subst h1
      by_cases h2 : k' = k
      · subst h2; simp [extendVal, assocFind]
      · have h2' : ¬ k = k' := fun hh => h2 hh.symm
        simp [extendVal, assocFind, h2, h2']
    · by_cases h2 : k' = k
      · subst h2
        have h1' : ¬ k' = g := h1
        simp [extendVal, assocFind, h1']
      · simp [extendVal, assocFind, h1, h2, ih]

theorem assocFind_append {α β : Type} [DecidableEq α] (k : α) (m l : List (α × β)) :
    assocFind k (m ++ l) =
      match assocFind k m with
      | some v => some v
      | none => assocFind k l := by
  induction m with
  | nil => simp [assocFind]
  | cons p rest ih =>
    obtain ⟨k', v⟩ := p
    by_cases h : k' = k
    · subst h; simp [assocFind]
    · simp [assocFind, h, ih]

theorem assocFind_mergeStep (gpt : Nat) (m : List (Nat × List PLEntry))
    (p : Nat × List PipelineSpan) (k : Nat) :
    assocFind k (mergeStep gpt m p) =
      if k = p.1 % gpt then
        some ((match assocFind k m with
               | some l => l
               | none => [PLEntry.meta]) ++ p.2.map PLEntry.span)
      else assocFind k m := by
  unfold mergeStep
  cases hfind : assocFind (p.1 % gpt) m with
  | some l0 =>
    simp only [hfind, Option.isSome_some, if_true]
    rw [assocFind_extendVal]
    by_cases hk : k = p.1 % gpt
    · rw [if_pos hk, if_pos hk, hk, hfind]
      rfl
    · rw [if_neg hk, if_neg hk]
  | none =>
    simp only [hfind, Option.isSome_none, Bool.false_eq_true, if_false]
    rw [assocFind_extendVal]
    by_cases hk : k = p.1 % gpt
    · rw [if_pos hk, if_pos hk, hk, hfind, assocFind_append, hfind]
      simp [assocFind]
    · have hk' : ¬ p.1 % gpt = k := fun hh => hk hh.symm
      rw [if_neg hk, if_neg hk, assocFind_append]
      cases hf2 : assocFind k m with
      | some l => rfl
      | none => simp [assocFind, hk']

theorem groupSpans_cons (gpt : Nat) (p : Nat × List PipelineSpan)
    (ds : List (Nat × List PipelineSpan)) (k : Nat) :
    groupSpans gpt (p :: ds) k =
      (if p.1 % gpt = k then p.2.map PLEntry.span else []) ++ groupSpans gpt ds k := by
  by_cases h : p.1 % gpt = k
  · simp [groupSpans, List.filter_cons, h]
  · simp [groupSpans, List.filter_cons, h]

theorem assocFind_mergeFold (gpt : Nat) :
    ∀ (ds : List (Nat × List PipelineSpan)) (m : List (Nat × List PLEntry)) (k : Nat),
      assocFind k (ds.foldl (mergeStep gpt) m) =
        match assocFind k m with
        | some l => some (l ++ groupSpans gpt ds k)
        | none =>
          if ds.any (fun p => decide (p.1 % gpt = k)) then
            some (PLEntry.meta :: groupSpans gpt ds k)
          else none := by
  intro ds
  induction ds with
  | nil =>
    intro m k
    cases hfind : assocFind k m with
    | some l => simp [groupSpans, hfind]
    | none => simp [groupSpans, hfind]
  | cons p ds ih =>
    intro m k
    simp only [List.foldl_cons]
    rw [ih (mergeStep gpt m p) k, assocFind_mergeStep, groupSpans_cons]
    by_cases hk : k = p.1 % gpt
    · have hk' : p.1 % gpt = k := hk.symm
      rw [if_pos hk, if_pos hk']
      cases hfind : assocFind k m with
      | some l => simp [hfind, List.any_cons, hk']
      | none => simp [hfind, List.any_cons, hk']
    · have hk' : ¬ p.1 % gpt = k := fun hh => hk hh.symm
      rw [if_neg hk, if_neg hk']
      cases hfind : assocFind k m with
      | some l => simp [hfind]
      | none =>
        have hany : (decide (p.1 % gpt = k) || ds.any fun q => decide (q.1 % gpt = k)) =
            (ds.any fun q => decide (q.1 % gpt = k)) := by
          simp [hk']
        simp only [hfind, List.any_cons, List.nil_append, hany]


/- ------------------------------------------------------------------ -/
/- Claims                                                              -/
/- ------------------------------------------------------------------ -/

/-- C1: for every timestamp-sorted input made of well-formed begin/end
marker pairs, each begin at ts0 immediately followed by an end at ts1 yields
exactly one span with duration ts1 - ts0, name = the phase token of the
begin tag ("forward"/"backward"), classified "good" iff the name is
"backward" and "bad" otherwise (see `expectedSpan`). -/
theorem C1_begin_end_pairs_reconstruction (ps : List (MarkerEvent × MarkerEvent)) (pid tid : Int)
    (hB : ∀ p ∈ ps, p.1.detail_info = "marker_forward_B" ∨ p.1.detail_info = "marker_backward_B")
    (hE : ∀ p ∈ ps, p.2.detail_info = "marker_forward_E" ∨ p.2.detail_info = "marker_backward_E")
    (hsort : List.Pairwise (fun a b : MarkerEvent => a.ts ≤ b.ts) (flattenPairs ps)) :
    allocate_forwardBackwardInfo (flattenPairs ps) pid tid =
      some (ps.map (expectedSpan pid tid)) := by
  unfold allocate_forwardBackwardInfo
  rw [stableSortBy_eq_self _ _ hsort]
  exact fbScan_pairs pid tid ps none hB hE

/-- Witness for C1 at a concrete forward and backward pair. -/
theorem C1_witness :
    allocate_forwardBackwardInfo
      [⟨0, "marker_forward_B"⟩, ⟨10, "marker_forward_E"⟩,
       ⟨12, "marker_backward_B"⟩, ⟨30, "marker_backward_E"⟩] 0 5 =
      some [⟨0, 10, "forward", "bad", 0, 5⟩, ⟨12, 18, "backward", "good", 0, 5⟩] := by
  have h := C1_begin_end_pairs_reconstruction
    [(⟨0, "marker_forward_B"⟩, ⟨10, "marker_forward_E"⟩),
     (⟨12, "marker_backward_B"⟩, ⟨30, "marker_backward_E"⟩)] 0 5
    (by decide) (by decide) (by decide)
  exact h.trans (by decide)

/-- C2 counterexample: the merge loop of `getPipeLineInfo` does not re-sort
by rankId; delivering the two ranks' partial results in the opposite order
produces a different merged per-device-group document. -/
theorem C2_counterexample :
    mergePipelineInfo 1 [(0, [⟨0, 1, "forward", "bad", 0, 0⟩]),
      (1, [⟨5, 1, "forward", "bad", 0, 1⟩])] ≠
    mergePipelineInfo 1 [(1, [⟨5, 1, "forward", "bad", 0, 1⟩]),
      (0, [⟨0, 1, "forward", "bad", 0, 0⟩])] := by
  decide

/-- C2 amended: the merged document is determined by the completion/delivery
order, not by rankId: each device group's list is the shared metadata entry
followed by the delivered span lists in delivery order (`groupSpans`), and a
group exists iff some delivered rank maps to it. No re-sorting by rankId
takes place, so different delivery orders may produce different documents. -/
theorem C2_merge_completion_order (gpt : Nat) (deliveries : List (Nat × List PipelineSpan))
    (g : Nat) (_hgpt : 0 < gpt) :
    assocFind g (mergePipelineInfo gpt deliveries) =
      if deliveries.any (fun p => decide (p.1 % gpt = g)) then
        some (PLEntry.meta :: groupSpans gpt deliveries g)
      else none := by
  unfold mergePipelineInfo
  rw [assocFind_mergeFold]
  rfl

/-- Witness for C2 at a concrete delivery stream. -/
theorem C2_witness :
    (0 : Nat) < 2 ∧
    assocFind 1 (mergePipelineInfo 2 [(3, [⟨7, 2, "forward", "bad", 0, 3⟩]), (1, [])]) =
      some (PLEntry.meta :: groupSpans 2 [(3, [⟨7, 2, "forward", "bad", 0, 3⟩]), (1, [])] 1) := by
  refine ⟨by decide, ?_⟩
  have h := C2_merge_completion_order 2 [(3, [⟨7, 2, "forward", "bad", 0, 3⟩]), (1, [])] 1
    (by decide)
  exact h.trans (by decide)

/-- C3: the reconstructor does NOT clear the pending marker after emitting a
span.  On Begin@0, End@10 the span is produced, but appending a trailing
End@20 makes the scan re-enter the emission branch with the already-emitted
event as pending, whose detail tag was overwritten with "forward"; the name
computation "forward".split('_')[1] then raises an uncaught IndexError
(modelled as `none`), instead of silently discarding the trailing end. -/
theorem C3_trailing_end_raises :
    allocate_forwardBackwardInfo
      [⟨0, "marker_forward_B"⟩, ⟨10, "marker_forward_E"⟩] 0 7 =
      some [⟨0, 10, "forward", "bad", 0, 7⟩] ∧
    allocate_forwardBackwardInfo
      [⟨0, "marker_forward_B"⟩, ⟨10, "marker_forward_E"⟩, ⟨20, "marker_forward_E"⟩] 0 7 =
      none := by
  decide

/-- C4 counterexample: the running total of `_allocate_memory_event` is
shared across ALL tracks of a rank.  With a CPU allocation (track 5) and a
GPU allocation (track 6), the sample emitted on track 6 at t=10 carries 107
(CPU bytes included), while the sum of track-6 deltas up to t=10 is 7. -/
theorem C4_counterexample :
    expandMemList 0 0 [(⟨0, 0, "CPU"⟩, 5), (⟨0, 0, "GPU"⟩, 6)]
      [⟨MemPlaceT.CPUPlace, 0, 1, 0, 1000, 100⟩, ⟨MemPlaceT.CUDAPlace, 0, 1, 10, 20, 7⟩] =
      some [⟨0, 100, "CPU", 5, 1, 0⟩, ⟨1000, -100, "CPU", 5, 1, 0⟩,
            ⟨10, 7, "GPU", 6, 1, 0⟩, ⟨20, -7, "GPU", 6, 1, 0⟩] ∧
    memRankSeries 0 0 [(⟨0, 0, "CPU"⟩, 5), (⟨0, 0, "GPU"⟩, 6)]
      [⟨MemPlaceT.CPUPlace, 0, 1, 0, 1000, 100⟩, ⟨MemPlaceT.CUDAPlace, 0, 1, 10, 20, 7⟩] =
      some [⟨5, 0, 100⟩, ⟨6, 10, 107⟩, ⟨6, 20, 100⟩, ⟨5, 1000, 0⟩] ∧
    trackSumUpTo [⟨0, 100, "CPU", 5, 1, 0⟩, ⟨1000, -100, "CPU", 5, 1, 0⟩,
      ⟨10, 7, "GPU", 6, 1, 0⟩, ⟨20, -7, "GPU", 6, 1, 0⟩] 6 10 = 7 ∧
    (107 : Int) ≠ 7 := by
  decide

/-- C4 amended: every emitted sample of one rank's series carries the sum of
ALL of that rank's (device-group-filtered) deltas with timestamp at or
before the sample's timestamp, regardless of track; the total is a pure
prefix sum within the rank (it is only reset between ranks). -/
theorem C4_rank_running_total (gpuId : Int) (rank : Nat) (memDevices : List (AllocKey × Int))
    (mevents : List MemEvent) (deltas : List MemDelta) (series : List CounterSample)
    (hexp : expandMemList gpuId rank memDevices mevents = some deltas)
    (hser : memRankSeries gpuId rank memDevices mevents = some series) :
    ∀ s ∈ series, s.value = sumSizesUpTo deltas s.ts := by
  unfold memRankSeries at hser
  rw [hexp] at hser
  simp only [Option.map_some', Option.some.injEq] at hser
  subst hser
  intro s hs
  have hsorted := stableSortBy_sorted (fun d : MemDelta => d.time) deltas
  have h := coalesceScan_value (stableSortBy (fun d => d.time) deltas) 0 hsorted s hs
  rw [h, sumSizesUpTo_perm (stableSortBy (fun d => d.time) deltas) deltas s.ts
    (stableSortBy_perm _ deltas)]
  ring

/-- Witness for C4 at one CPU allocation. -/
theorem C4_witness :
    expandMemList 0 0 [(⟨0, 0, "CPU"⟩, 3)] [⟨MemPlaceT.CPUPlace, 0, 1, 2, 9, 50⟩] =
      some [⟨2, 50, "CPU", 3, 1, 0⟩, ⟨9, -50, "CPU", 3, 1, 0⟩] ∧
    memRankSeries 0 0 [(⟨0, 0, "CPU"⟩, 3)] [⟨MemPlaceT.CPUPlace, 0, 1, 2, 9, 50⟩] =
      some [⟨3, 2, 50⟩, ⟨3, 9, 0⟩] ∧
    (∀ s ∈ [(⟨3, 2, 50⟩ : CounterSample), ⟨3, 9, 0⟩],
      s.value = sumSizesUpTo [⟨2, 50, "CPU", 3, 1, 0⟩, ⟨9, -50, "CPU", 3, 1, 0⟩] s.ts) := by
  refine ⟨by decide, by decide, ?_⟩
  exact C4_rank_running_total 0 0 [(⟨0, 0, "CPU"⟩, 3)] [⟨MemPlaceT.CPUPlace, 0, 1, 2, 9, 50⟩]
    [⟨2, 50, "CPU", 3, 1, 0⟩, ⟨9, -50, "CPU", 3, 1, 0⟩] [⟨3, 2, 50⟩, ⟨3, 9, 0⟩]
    (by decide) (by decide)

/-- C5: pid assignment in `_allocate_pids` is memoized and injective: the
assignment log carries the consecutive integers initPid, initPid+1, ... in
first-seen order (strictly increasing, never reused), no (table, key) pair
is ever assigned twice (so a second encounter of a key finds the stored id
and never reassigns), and the two device tables are exactly the log split
by table, so distinct keys hold distinct ids. -/
theorem C5_track_id_allocation (profile : List RankRecord) (gpuId : Int) (initPid : Int) :
    (allocate_pids profile gpuId initPid).log.map LogEntry.pid =
      intRange initPid (allocate_pids profile gpuId initPid).log.length ∧
    ((allocate_pids profile gpuId initPid).log.map (fun e => (e.kind, e.key))).Nodup ∧
    (allocate_pids profile gpuId initPid).devices =
      ((allocate_pids profile gpuId initPid).log.filter
        (fun e => decide (e.kind = TrackKind.dev))).map (fun e => (e.key, e.pid)) ∧
    (allocate_pids profile gpuId initPid).mem_devices =
      ((allocate_pids profile gpuId initPid).log.filter
        (fun e => decide (e.kind = TrackKind.mem))).map (fun e => (e.key, e.pid)) := by
  obtain ⟨h1, h2, h3, h4, h5⟩ := allocInv_allocate_pids profile gpuId initPid
  exact ⟨h2, h3, h4, h5⟩

/-- C6: (a) deltas +100@t0, -100@t1 with t0 < t1 produce exactly the series
[(t0,100), (t1,0)]; (b) two deltas +50@t, +20@t at one timestamp after a
prior cumulative total T produce exactly one sample (t, T+70); (c) emitted
sample timestamps are strictly increasing. -/
theorem C6_counter_coalescing :
    (∀ (t0 t1 p : Int) (pl : String) (th dev : Int), t0 < t1 →
      coalesceScan 0 (stableSortBy (fun d => d.time)
        [⟨t0, 100, pl, p, th, dev⟩, ⟨t1, -100, pl, p, th, dev⟩]) =
        [⟨p, t0, 100⟩, ⟨p, t1, 0⟩]) ∧
    (∀ (t T p : Int) (pl : String) (th dev : Int),
      coalesceScan T (stableSortBy (fun d => d.time)
        [⟨t, 50, pl, p, th, dev⟩, ⟨t, 20, pl, p, th, dev⟩]) = [⟨p, t, T + 70⟩]) ∧
    (∀ (total : Int) (ds : List MemDelta),
      List.Pairwise (fun a b : CounterSample => a.ts < b.ts)
        (coalesceScan total (stableSortBy (fun d => d.time) ds))) := by
  refine ⟨?_, ?_, ?_⟩
  · intro t0 t1 p pl th dev h
    have hle : t0 ≤ t1 := le_of_lt h
    have hne : ¬ (t1 = t0) := ne_of_gt h
    simp [stableSortBy, insLe, hle, coalesceScan, coalesce1, hne]
  · intro t T p pl th dev
    simp [stableSortBy, insLe, coalesceScan, coalesce1]
    ring
  · intro total ds
    exact coalesceScan_ts_strict _ total (stableSortBy_sorted _ ds)

/-- Witness for C6 at concrete deltas. -/
theorem C6_witness :
    coalesceScan 0 (stableSortBy (fun d => d.time)
      [⟨1, 100, "CPU", 9, 0, 0⟩, ⟨2, -100, "CPU", 9, 0, 0⟩]) = [⟨9, 1, 100⟩, ⟨9, 2, 0⟩] ∧
    coalesceScan 4 (stableSortBy (fun d => d.time)
      [⟨3, 50, "CPU", 9, 0, 0⟩, ⟨3, 20, "CPU", 9, 0, 0⟩]) = [⟨9, 3, 74⟩] := by
  constructor
  · exact (C6_counter_coalescing.1 1 2 9 "CPU" 0 0 (by decide)).trans (by decide)
  · exact (C6_counter_coalescing.2.1 3 4 9 "CPU" 0 0).trans (by decide)

/-- C7 counterexample: a rank whose record has NO memory events gets none of
the three catch-all memory tracks: the catch-all block lives inside the
`for mevent in mem_events` loop, which never runs. -/
theorem C7_counterexample :
    (allocate_pids [⟨0, [], []⟩] 0 100).mem_devices = [] ∧
    (⟨0, 0, "CPU"⟩ : AllocKey) ∉ (allocate_pids [⟨0, [], []⟩] 0 100).mem_devices.map Prod.fst := by
  decide

/-- C7 amended: for every rank with at least one memory event, the three
fixed catch-all memory tracks (rank, device 0, CPU/GPU/CUDAPinnedPlace) are
always created, even if no memory event of that rank references device 0
and regardless of the rendered device group. -/
theorem C7_catchall_tracks (profile : List RankRecord) (gpuId : Int) (initPid : Int)
    (r : RankRecord) (hr : r ∈ profile) (hne : r.mem_events ≠ []) :
    (⟨r.rankId, 0, "CPU"⟩ : AllocKey) ∈
      (allocate_pids profile gpuId initPid).mem_devices.map Prod.fst ∧
    (⟨r.rankId, 0, "GPU"⟩ : AllocKey) ∈
      (allocate_pids profile gpuId initPid).mem_devices.map Prod.fst ∧
    (⟨r.rankId, 0, "CUDAPinnedPlace"⟩ : AllocKey) ∈
      (allocate_pids profile gpuId initPid).mem_devices.map Prod.fst :=
  allocate_pids_catchall profile gpuId initPid r hr hne

/-- Witness for C7: one rank with a single CPU memory event on device 3
(device 0 never referenced) still gets all three catch-all tracks. -/
theorem C7_witness :
    (⟨0, 0, "CPU"⟩ : AllocKey) ∈
      (allocate_pids [⟨0, [], [⟨MemPlaceT.CPUPlace, 3, 1, 0, 5, 10⟩]⟩] 0 7).mem_devices.map
        Prod.fst ∧
    (⟨0, 0, "GPU"⟩ : AllocKey) ∈
      (allocate_pids [⟨0, [], [⟨MemPlaceT.CPUPlace, 3, 1, 0, 5, 10⟩]⟩] 0 7).mem_devices.map
        Prod.fst ∧
    (⟨0, 0, "CUDAPinnedPlace"⟩ : AllocKey) ∈
      (allocate_pids [⟨0, [], [⟨MemPlaceT.CPUPlace, 3, 1, 0, 5, 10⟩]⟩] 0 7).mem_devices.map
        Prod.fst :=
  C7_catchall_tracks [⟨0, [], [⟨MemPlaceT.CPUPlace, 3, 1, 0, 5, 10⟩]⟩] 0 7
    ⟨0, [], [⟨MemPlaceT.CPUPlace, 3, 1, 0, 5, 10⟩]⟩ (by decide) (by decide)

/-- C8: a record whose memory-event section is empty is tolerated (empty
series, no counter samples, no error); but when the MemEvent schema is
absent (`hasattr(profiler_pb2, "MemEvent")` false), `_allocate_memory_event`
returns Python None, and the caller's `memEventsTrace._events` access in
`_getOPTraceInfoByGpuId` raises AttributeError, aborting the run — contrary
to the claim that schema absence is never an error. -/
theorem C8_missing_schema (gpt displaySize : Nat) (gpuId : Int)
    (memDevices : List (AllocKey × Int)) (profile : List RankRecord)
    (metadata : List LogEntry) (events : List TraceRegion) :
    allocate_memory_event false gpt displaySize gpuId memDevices profile = none ∧
    assembleOpTrace metadata (some events)
      (allocate_memory_event false gpt displaySize gpuId memDevices profile) = none ∧
    ((∀ r ∈ profile, r.mem_events = []) →
      allocate_memory_event true gpt displaySize gpuId memDevices profile = some []) := by
  refine ⟨rfl, rfl, ?_⟩
  exact fun hall => allocate_memory_event_empty gpt displaySize gpuId memDevices profile hall

/-- Witness for C8 at a concrete one-rank profile. -/
theorem C8_witness :
    allocate_memory_event false 8 1 0 [] [⟨0, [], []⟩] = none ∧
    allocate_memory_event true 8 1 0 [] [⟨0, [], []⟩] = some [] := by
  obtain ⟨h1, h2, h3⟩ := C8_missing_schema 8 1 0 [] [⟨0, [], []⟩] [] []
  exact ⟨h1, h3 (by decide)⟩

/-- C9 counterexample: a GPUKernel event on an in-group rank (rankId % gpt =
gpuId) referencing a device other than gpuId is NOT skipped (the skip needs
the rank to be off-group too), and its track was never allocated, so the
projection raises KeyError (`none`). -/
theorem C9_counterexample :
    (allocate_pids [⟨0, [⟨EvType.GPUKernel, 1, 0, "k", 0, 5, 0, ""⟩], []⟩] 0 40).devices = [] ∧
    allocate_events [⟨0, [⟨EvType.GPUKernel, 1, 0, "k", 0, 5, 0, ""⟩], []⟩]
      (allocate_pids [⟨0, [⟨EvType.GPUKernel, 1, 0, "k", 0, 5, 0, ""⟩], []⟩] 0 40).devices
      0 8 = none := by
  decide

/-- C9 amended: projection is total provided every GPUKernel event whose
device is off-group lies on an off-group rank (then it is skipped); CPU
events and on-device GPUKernel events always resolve their track id from
the allocation pass over the same records. -/
theorem C9_projection_total (profile : List RankRecord) (gpuId : Int) (initPid : Int) (gpt : Nat)
    (h : ∀ r ∈ profile, ∀ e ∈ r.events, e.type = EvType.GPUKernel → e.device_id ≠ gpuId →
      ((r.rankId % gpt : Nat) : Int) ≠ gpuId) :
    ∃ rs, allocate_events profile (allocate_pids profile gpuId initPid).devices gpuId gpt =
      some rs := by
  apply allocate_events_isSome
  intro r hr e he
  cases hty : e.type with
  | CPU =>
    right
    exact (allocate_pids_event_key profile gpuId initPid r e hr he).1 hty
  | GPUKernel =>
    by_cases hdev : e.device_id = gpuId
    · right
      exact (allocate_pids_event_key profile gpuId initPid r e hr he).2 hty hdev.symm
    · left
      exact ⟨rfl, hdev, h r hr e he hty hdev⟩

/-- Witness for C9: one in-group rank whose GPUKernel event is on the
rendered device and whose CPU event is the cuda-api track. -/
theorem C9_witness :
    ∃ rs, allocate_events
      [⟨0, [⟨EvType.CPU, -1, 0, "api", 0, 5, 0, ""⟩,
            ⟨EvType.GPUKernel, 0, 0, "k", 1, 6, 0, ""⟩], []⟩]
      (allocate_pids
        [⟨0, [⟨EvType.CPU, -1, 0, "api", 0, 5, 0, ""⟩,
              ⟨EvType.GPUKernel, 0, 0, "k", 1, 6, 0, ""⟩], []⟩] 0 40).devices
      0 8 = some rs :=
  C9_projection_total
    [⟨0, [⟨EvType.CPU, -1, 0, "api", 0, 5, 0, ""⟩,
          ⟨EvType.GPUKernel, 0, 0, "k", 1, 6, 0, ""⟩], []⟩] 0 40 8 (by decide)

/-- C10: with two consecutive begin markers and one end marker, the second
begin wins: exactly one span from t1 to t2 is produced (named from the
second begin's tag); and a dangling begin alone produces no span. -/
theorem C10_last_begin_wins (t0 t1 t2 pid tid : Int) (tagB0 tagB1 : String)
    (h01 : t0 ≤ t1) (h12 : t1 ≤ t2)
    (hB0 : tagB0 = "marker_forward_B" ∨ tagB0 = "marker_backward_B")
    (hB1 : tagB1 = "marker_forward_B" ∨ tagB1 = "marker_backward_B") :
    allocate_forwardBackwardInfo [⟨t0, tagB0⟩, ⟨t1, tagB1⟩, ⟨t2, "marker_forward_E"⟩] pid tid =
      some [⟨t1, t2 - t1,
        (if tagB1 = "marker_forward_B" then "forward" else "backward"),
        (if tagB1 = "marker_forward_B" then "bad" else "good"), pid, tid⟩] ∧
    allocate_forwardBackwardInfo [⟨t0, tagB0⟩] pid tid = some [] := by
  have e1 : endsWithE "marker_forward_B" = false := by decide
  have e2 : endsWithE "marker_backward_B" = false := by decide
  have e3 : endsWithE "marker_forward_E" = true := by decide
  have p1 : pyPhaseName "marker_forward_B" = some "forward" := by decide
  have p2 : pyPhaseName "marker_backward_B" = some "backward" := by decide
  constructor
  · have hsort : stableSortBy (fun m : MarkerEvent => m.ts)
        [⟨t0, tagB0⟩, ⟨t1, tagB1⟩, ⟨t2, "marker_forward_E"⟩] =
        [⟨t0, tagB0⟩, ⟨t1, tagB1⟩, ⟨t2, "marker_forward_E"⟩] := by
      apply stableSortBy_eq_self
      refine List.Pairwise.cons ?_ (List.Pairwise.cons ?_ (List.pairwise_singleton _ _))
      · intro b hb
        rcases List.mem_cons.mp hb with rfl | hb2
        · exact h01
        · rcases List.mem_singleton.mp hb2 with rfl
          exact le_trans h01 h12
      · intro b hb
        rcases List.mem_singleton.mp hb with rfl
        exact h12
    unfold allocate_forwardBackwardInfo
    rw [hsort]
    rcases hB0 with rfl | rfl <;> rcases hB1 with rfl | rfl <;>
      simp only [fbScan, e1, e2, e3, p1, p2, Bool.false_eq_true, if_false, if_true,
        Option.map_some'] <;>
      rfl
  · unfold allocate_forwardBackwardInfo
    have hs1 : stableSortBy (fun m : MarkerEvent => m.ts) [⟨t0, tagB0⟩] = [⟨t0, tagB0⟩] := rfl
    rw [hs1]
    rcases hB0 with rfl | rfl <;>
      simp only [fbScan, e1, e2, Bool.false_eq_true, if_false]

/-- Witness for C10 at concrete timestamps and tags. -/
theorem C10_witness :
    allocate_forwardBackwardInfo
      [⟨0, "marker_forward_B"⟩, ⟨4, "marker_backward_B"⟩, ⟨9, "marker_forward_E"⟩] 0 2 =
      some [⟨4, 5, "backward", "good", 0, 2⟩] ∧
    allocate_forwardBackwardInfo [⟨0, "marker_forward_B"⟩] 0 2 = some [] := by
  obtain ⟨h1, h2⟩ := C10_last_begin_wins 0 4 9 0 2 "marker_forward_B" "marker_backward_B"
    (by decide) (by decide) (Or.inl rfl) (Or.inr rfl)
  exact ⟨h1.trans (by decide), h2⟩
